import Mathlib

/-!
Verification development for the JsonResolver fragment-resolution engine.

The repository contains two revisions of the resolver:

* the node-tree revision (`FragmentParser` / resolution nodes / `DependencyTracker`,
  in `src/src/json_resolver.cpp`, `fragment_implementations.hpp`,
  `dependency_tracker.hpp`, `fragment_nodes.hpp`), embedded below in
  namespace `RevB`;
* the recursive revision (`JsonResolver::resolve_fragment` / `process_value`),
  embedded below in namespace `RevA`.

JSON values are modelled with integer numerics (the claims under study use only
strings, integers, arrays and objects); `nlohmann::json` objects are kept in
`std::map` fashion: association lists sorted by key, with sorted insertion.
Strings are modelled as lists of characters; the C++ `std::string` scanning
primitives (`find`, `rfind`, `substr`, `replace`) are translated index for index.
Recursion through the fragment collection is fuel-indexed; exhausting fuel is a
resource fault (the design document treats call-stack exhaustion the same way).
-/

/-- JSON values as stored in fragment collections. Objects are sorted
association lists, mirroring `nlohmann::json`'s `std::map` representation. -/
inductive Json where
  | null : Json
  | bool (b : Bool) : Json
  | num (n : Int) : Json
  | str (s : String) : Json
  | arr (elems : List Json) : Json
  | obj (entries : List (String × Json)) : Json
deriving Repr

/-- Fragment collection: mapping from fragment name to raw JSON value. -/
abbrev Frags := List (String × Json)

/-- `std::map::find` on a fragment collection. -/
def lookupFrag : Frags → String → Option Json
  | [], _ => none
  | (k, v) :: rest, name => if k = name then some v else lookupFrag rest name

/-- Byte-wise (here: character-code) lexicographic comparison, the order
used by `std::string` in `std::set` and `std::map`. -/
def charListLt : List Char → List Char → Bool
  | [], [] => false
  | [], _ :: _ => true
  | _ :: _, [] => false
  | a :: as, b :: bs =>
    if a.toNat < b.toNat then true
    else if b.toNat < a.toNat then false
    else charListLt as bs

/-- `std::string` ordering. -/
def strLtB (a b : String) : Bool := charListLt a.toList b.toList

/-- Membership in a modelled `std::set<std::string>`. -/
def setMem (x : String) : List String → Bool
  | [] => false
  | y :: ys => if x = y then true else setMem x ys

/-- `std::set<std::string>::insert`: sorted insertion without duplicates,
so that list order is the set's iteration order. -/
def setInsert (x : String) : List String → List String
  | [] => [x]
  | y :: ys =>
    if x = y then y :: ys
    else if strLtB x y then x :: y :: ys
    else y :: setInsert x ys

/-- `std::set<std::string>::erase`. -/
def setErase (x : String) : List String → List String
  | [] => []
  | y :: ys => if x = y then ys else y :: setErase x ys

/-- Sorted insertion with overwrite into a modelled `nlohmann::json` object
(`result[key] = value` over `std::map`). -/
def objInsert : List (String × Json) → String → Json → List (String × Json)
  | [], k, v => [(k, v)]
  | (k', v') :: rest, k, v =>
    if k = k' then (k, v) :: rest
    else if strLtB k k' then (k, v) :: (k', v') :: rest
    else (k', v') :: objInsert rest k v

/-- Rebuild a `String` from characters. -/
def listAsStr (l : List Char) : String := ⟨l⟩

/-- Does `needle` occur in `hay` starting exactly at index `i`? -/
def occursAt (hay needle : List Char) (i : Nat) : Bool :=
  decide ((hay.drop i).take needle.length = needle)

/-- Scan upward from `i`, `cnt` positions, for an occurrence of `needle`. -/
def findFromAux (hay needle : List Char) : Nat → Nat → Option Nat
  | _, 0 => none
  | i, cnt + 1 => if occursAt hay needle i then some i else findFromAux hay needle (i + 1) cnt

/-- `std::string::find(needle, start)`: first occurrence at index ≥ `start`. -/
def findFrom (hay needle : List Char) (start : Nat) : Option Nat :=
  if start ≤ hay.length then findFromAux hay needle start (hay.length + 1 - start) else none

/-- Scan downward from `i` for an occurrence of `needle`. -/
def rfindAux (hay needle : List Char) : Nat → Option Nat
  | 0 => if occursAt hay needle 0 then some 0 else none
  | i + 1 => if occursAt hay needle (i + 1) then some (i + 1) else rfindAux hay needle i

/-- `std::string::rfind(needle, upto)`: last occurrence beginning at index ≤ `upto`. -/
def rfindUpTo (hay needle : List Char) (upto : Nat) : Option Nat :=
  rfindAux hay needle (min upto hay.length)

/-- `std::string::substr(pos, len)` as a character-list operation. -/
def subList (l : List Char) (pos len : Nat) : List Char := (l.drop pos).take len

/-- `std::string::replace(pos, len, repl)`. -/
def replaceRange (l : List Char) (pos len : Nat) (repl : List Char) : List Char :=
  l.take pos ++ repl ++ l.drop (pos + len)

/-- Boolean substring test (used to state facts about error messages). -/
def containsSub (hay needle : List Char) : Bool := (findFrom hay needle 0).isSome

/-- The error taxonomy of `exceptions.hpp`, plus a fuel-exhaustion marker for
the resource fault of unbounded recursion/looping. `general` is the base
`JsonFragmentsError` class. -/
inductive ErrKind where
  | fragmentNotFound
  | circularDependency
  | invalidKey
  | general
  | outOfFuel
deriving DecidableEq, Repr

/-- A thrown exception: its dynamic type and its `what()` message. -/
structure Err where
  kind : ErrKind
  msg : String
deriving DecidableEq, Repr

/-- `FragmentNotFoundError(name)`. -/
def mkFNF (name : String) : Err :=
  ⟨.fragmentNotFound, "Fragment not found: " ++ name⟩

/-- `CircularDependencyError(cycle)`. -/
def mkCircular (cycle : String) : Err :=
  ⟨.circularDependency, "Circular dependency detected: " ++ cycle⟩

/-- `InvalidKeyError(key)`. -/
def mkInvalidKey (key : String) : Err :=
  ⟨.invalidKey, "Fragment used as key must resolve to a string: " ++ key⟩

/-- Fuel exhaustion (models call-stack/loop resource exhaustion). -/
def outOfFuelErr : Err := ⟨.outOfFuel, "evaluation fuel exhausted"⟩

/-- `JsonResolverConfig::MissingFragmentBehavior`. -/
inductive MissingFragmentBehavior where
  | Throw
  | LeaveUnresolved
  | UseDefault
  | Remove
deriving DecidableEq, Repr

/-- `JsonResolverConfig::Delimiters` (`end` is a Lean keyword, hence `endD`). -/
structure Delimiters where
  start : String
  endD : String
deriving Repr

/-- `JsonResolverConfig`. -/
structure JsonResolverConfig where
  missing_fragment_behavior : MissingFragmentBehavior
  default_value : Json
  delimiters : Delimiters
deriving Repr

/-- The default configuration: `Throw`, default value `nullptr`, delimiters `[` `]`. -/
def defaultConfig : JsonResolverConfig :=
  { missing_fragment_behavior := .Throw
    default_value := .null
    delimiters := { start := "[", endD := "]" } }

namespace RevB

/-- Per-parser/evaluation state of the node-tree revision: the
`DependencyTracker`'s in-progress set (`currently_evaluating_`, a sorted set),
the `EvaluationContext`'s path stack (`path_`, most recent component first),
and the dependency graph (`dependencies_`). -/
structure St where
  evaluating : List String
  path : List String
  deps : List (String × List String)
deriving Repr

/-- `EvaluationContext::push`. -/
def pushPath (st : St) (c : String) : St := { st with path := c :: st.path }

/-- `EvaluationContext::pop` (no-op on an empty path, as in the source). -/
def popPath (st : St) : St :=
  match st.path with
  | [] => st
  | _ :: rest => { st with path := rest }

/-- `EvaluationContext::path_string`: `/comp/comp/...`, `/` when empty. -/
def pathString (p : List String) : String :=
  match p.reverse with
  | [] => "/"
  | comps => comps.foldl (fun acc c => acc ++ "/" ++ c) ""

/-- Insert an edge into the dependency graph
(`dependencies_[dependent].insert(dependency)`). -/
def depsInsert : List (String × List String) → String → String → List (String × List String)
  | [], k, v => [(k, [v])]
  | (k', vs) :: rest, k, v =>
    if k = k' then (k', setInsert v vs) :: rest
    else (k', vs) :: depsInsert rest k v

/-- `dependencies_.find(start)`, yielding the (sorted) set of dependencies. -/
def depsLookup : List (String × List String) → String → List String
  | [], _ => []
  | (k, vs) :: rest, name => if k = name then vs else depsLookup rest name

/-- `DependencyTracker::build_cycle_string`: the path joined by ` -> `,
with the front element repeated at the end when nonempty. -/
def buildCycleString (path : List String) : String :=
  let joined :=
    match path with
    | [] => ""
    | p :: rest => rest.foldl (fun acc c => acc ++ " -> " ++ c) p
  match path with
  | [] => joined
  | f :: _ => joined ++ " -> " ++ f

/-- Work items for `DependencyTracker::has_cycle_from`: either visit one node
(`inl`) or iterate the remaining dependencies of the node on top of the DFS
path (`inr`). Carries (found, visited, path), all mutated by reference in the
source. -/
def hasCycleWork (deps : List (String × List String)) :
    Nat → Sum String (List String) → List String → List String →
    Bool × List String × List String
  | 0, _, visited, path => (false, visited, path)
  | fuel + 1, .inl start, visited, path =>
    if setMem start path then
      (true, visited, if path.getLast? = some start then path else path ++ [start])
    else if setMem start visited then
      (false, visited, path)
    else
      match hasCycleWork deps fuel (.inr (depsLookup deps start))
          (start :: visited) (path ++ [start]) with
      | (true, v', p') => (true, v', p')
      | (false, v', p') => (false, v', p'.dropLast)
  | _ + 1, .inr [], visited, path => (false, visited, path)
  | fuel + 1, .inr (d :: ds), visited, path =>
    match hasCycleWork deps fuel (.inl d) visited path with
    | (true, v', p') => (true, v', p')
    | (false, v', p') => hasCycleWork deps fuel (.inr ds) v' p'

/-- Fuel bound under which `has_cycle_from` cannot exhaust: generous multiple
of the total size of the dependency graph. -/
def depsFuel (deps : List (String × List String)) : Nat :=
  2 * deps.foldl (fun acc p => acc + p.2.length + 1) 0 + 4

/-- `DependencyTracker::add_dependency`: record the edge, then check for a
cycle reachable from `dependent`; on a cycle, throw `CircularDependencyError`
with the DFS path rendered by `build_cycle_string`. -/
def addDependency (st : St) (dependent dependency : String) : Except (Err × St) St :=
  if dependent = "" then .ok st
  else
    let deps1 := depsInsert st.deps dependent dependency
    let st1 := { st with deps := deps1 }
    match hasCycleWork deps1 (depsFuel deps1) (.inl dependent) [] [] with
    | (true, _, cyclePath) => .error (mkCircular (buildCycleString cyclePath), st1)
    | (false, _, _) => .ok st1

/-- `FragmentParser::is_complete_fragment_reference`: long enough, starts with
the start delimiter, ends with the end delimiter. -/
def is_complete_fragment_reference (cfg : JsonResolverConfig) (s : String) : Bool :=
  let l := s.toList
  let sd := cfg.delimiters.start.toList
  let ed := cfg.delimiters.endD.toList
  decide (sd.length + ed.length ≤ l.length) &&
    decide (l.take sd.length = sd) &&
    decide (l.drop (l.length - ed.length) = ed)

/-- `FragmentParser::extract_fragment_name`:
`substr(start.length, length - start.length - end.length)`. -/
def extract_fragment_name (cfg : JsonResolverConfig) (s : String) : String :=
  let l := s.toList
  let sl := cfg.delimiters.start.toList.length
  let el := cfg.delimiters.endD.toList.length
  listAsStr (subList l sl (l.length - sl - el))

/-- The resolution-node variants (`LiteralNode`, `ReferenceNode`,
`StringTemplateNode`, `ObjectNode`, `ArrayNode`). -/
inductive Node where
  | literal (v : Json)
  | ref (name : String)
  | template (text : String)
  | object (entries : List (Node × Node))
  | array (elems : List Node)
deriving Repr

/-- Exception propagation: run the continuation on success, let a thrown
error (with the state it left behind) unwind past this frame otherwise. -/
def andThen {a b : Type} (r : Except (Err × St) (a × St))
    (k : a → St → Except (Err × St) (b × St)) : Except (Err × St) (b × St) :=
  match r with
  | .error e => .error e
  | .ok (x, s) => k x s

/-- Exception propagation for a step that only transforms the state
(`add_dependency`). -/
def andThenSt {b : Type} (r : Except (Err × St) St)
    (k : St → Except (Err × St) (b × St)) : Except (Err × St) (b × St) :=
  match r with
  | .error e => .error e
  | .ok s => k s

/-- `FragmentEvaluationGuard`: `end_evaluation(name)` runs when the guard is
destroyed, during exception unwinding as well as on normal exit. -/
def withGuard {a : Type} (name : String) (r : Except (Err × St) (a × St)) :
    Except (Err × St) (a × St) :=
  match r with
  | .ok (x, s2) => .ok (x, { s2 with evaluating := setErase name s2.evaluating })
  | .error (e, s2) => .error (e, { s2 with evaluating := setErase name s2.evaluating })

/-- `EvaluationContext::ScopedComponent`: the matching `pop` runs when the
scope is destroyed, during exception unwinding as well as on normal exit. -/
def withScope {a : Type} (r : Except (Err × St) (a × St)) :
    Except (Err × St) (a × St) :=
  match r with
  | .ok (x, s2) => .ok (x, popPath s2)
  | .error (e, s2) => .error (e, popPath s2)

/-- Work items of `FragmentParser::parse`: one JSON value, an object's
remaining entries, an array's remaining elements, or
`evaluate_fragment_dependencies` for a referenced fragment. -/
inductive ParseTask where
  | one (j : Json) (current : String)
  | entries (kvs : List (String × Json)) (current : String) (acc : List (Node × Node))
  | elems (xs : List Json) (current : String) (acc : List Node)
  | fragDeps (name : String)

/-- Results of the corresponding parse work items. -/
inductive ParseOut where
  | node (n : Node)
  | entries (es : List (Node × Node))
  | elems (ns : List Node)
  | done
deriving Repr

/-- Project the node produced by a `.one` work item (the other constructors
cannot occur there). -/
def outNode : ParseOut → Node
  | .node n => n
  | _ => .literal .null

/-- Project the entry list produced by an `.entries` work item. -/
def outEntries : ParseOut → List (Node × Node)
  | .entries es => es
  | _ => []

/-- Project the element list produced by an `.elems` work item. -/
def outElems : ParseOut → List Node
  | .elems ns => ns
  | _ => []

/-- `FragmentParser::parse` / `evaluate_fragment_dependencies` /
`FragmentEvaluationGuard`, fuel-indexed. The guard semantics of C++ stack
unwinding are explicit: `end_evaluation` runs on the error path as well,
while a throwing `begin_evaluation` leaves the state untouched. -/
def parseCore (cfg : JsonResolverConfig) (frags : Frags) :
    Nat → ParseTask → St → Except (Err × St) (ParseOut × St)
  | 0, _, st => .error (outOfFuelErr, st)
  | fuel + 1, .one j current, st =>
    match j with
    | .str s =>
      if is_complete_fragment_reference cfg s then
        let name := extract_fragment_name cfg s
        if current ≠ "" then
          andThenSt (addDependency st current name) (fun st1 =>
            andThen (parseCore cfg frags fuel (.fragDeps name) st1) (fun _ st2 =>
              .ok (.node (.ref name), st2)))
        else .ok (.node (.ref name), st)
      else if (findFrom s.toList cfg.delimiters.start.toList 0).isSome then
        .ok (.node (.template s), st)
      else .ok (.node (.literal (.str s)), st)
    | .obj kvs =>
      andThen (parseCore cfg frags fuel (.entries kvs current []) st) (fun out st1 =>
        .ok (.node (.object (outEntries out)), st1))
    | .arr xs =>
      andThen (parseCore cfg frags fuel (.elems xs current []) st) (fun out st1 =>
        .ok (.node (.array (outElems out)), st1))
    | other => .ok (.node (.literal other), st)
  | _ + 1, .entries [] _ acc, st => .ok (.entries acc, st)
  | fuel + 1, .entries ((k, v) :: rest) current acc, st =>
    let keyStep : Except (Err × St) (Node × St) :=
      if is_complete_fragment_reference cfg k then
        let name := extract_fragment_name cfg k
        if current ≠ "" then
          andThenSt (addDependency st current name) (fun st1 =>
            andThen (parseCore cfg frags fuel (.fragDeps name) st1) (fun _ st2 =>
              .ok (.ref name, st2)))
        else .ok (.ref name, st)
      else .ok (.literal (.str k), st)
    andThen keyStep (fun kn st1 =>
      andThen (parseCore cfg frags fuel (.one v current) st1) (fun outv st2 =>
        parseCore cfg frags fuel (.entries rest current (acc ++ [(kn, outNode outv)])) st2))
  | _ + 1, .elems [] _ acc, st => .ok (.elems acc, st)
  | fuel + 1, .elems (x :: xs) current acc, st =>
    andThen (parseCore cfg frags fuel (.one x current) st) (fun outx st1 =>
      parseCore cfg frags fuel (.elems xs current (acc ++ [outNode outx])) st1)
  | fuel + 1, .fragDeps name, st =>
    match lookupFrag frags name with
    | none => .ok (.done, st)
    | some v =>
      if setMem name st.evaluating then
        .error (mkCircular (buildCycleString st.evaluating), st)
      else
        andThen (withGuard name (parseCore cfg frags fuel (.one v name)
            { st with evaluating := setInsert name st.evaluating }))
          (fun _ st2 => .ok (.done, st2))

/-- Wrap a caught `JsonFragmentsError` as the base class with the current
path appended (`StringTemplateNode::evaluate`'s catch block; the scoped
`template:` component has already been popped when the catch runs). -/
def wrapErr (e : Err) (st : St) : Err :=
  ⟨.general, e.msg ++ " at " ++ pathString st.path⟩

/-- Work items of node evaluation: a node, an object's remaining entries with
the accumulated object, an array's remaining elements with index and
accumulated elements, or the template-scan state (`result`, `pos`,
`made_changes`) of `StringTemplateNode::evaluate`. -/
inductive EvalTask where
  | node (n : Node)
  | entries (es : List (Node × Node)) (acc : List (String × Json))
  | elems (ns : List Node) (i : Nat) (acc : List Json)
  | tmpl (result : List Char) (pos : Nat) (made : Bool)

/-- `FragmentNode::evaluate` for every node variant, fuel-indexed. Scoped
path components (`EvaluationContext::ScopedComponent`) are popped on the
error path as well, mirroring C++ stack unwinding. -/
def evalCore (cfg : JsonResolverConfig) (frags : Frags) :
    Nat → EvalTask → St → Except (Err × St) (Json × St)
  | 0, _, st => .error (outOfFuelErr, st)
  | fuel + 1, .node n, st =>
    match n with
    | .literal v => .ok (v, st)
    | .ref name =>
      match lookupFrag frags name with
      | none =>
        match cfg.missing_fragment_behavior with
        | .Throw => .error (mkFNF name, st)
        | .LeaveUnresolved =>
          .ok (.str (cfg.delimiters.start ++ name ++ cfg.delimiters.endD), st)
        | .UseDefault => .ok (cfg.default_value, st)
        | .Remove => .ok (.str "", st)
      | some v => .ok (v, popPath (pushPath st name))
    | .template text => evalCore cfg frags fuel (.tmpl text.toList 0 false) st
    | .object es => evalCore cfg frags fuel (.entries es []) st
    | .array ns => evalCore cfg frags fuel (.elems ns 0 []) st
  | _ + 1, .entries [] acc, st => .ok (.obj acc, st)
  | fuel + 1, .entries ((kn, vn) :: rest) acc, st =>
    andThen (evalCore cfg frags fuel (.node kn) st) (fun kj st1 =>
      match kj with
      | .str k =>
        andThen (withScope (evalCore cfg frags fuel (.node vn) (pushPath st1 k)))
          (fun vj st2 => evalCore cfg frags fuel (.entries rest (objInsert acc k vj)) st2)
      | _ => .error (mkInvalidKey "Object key must evaluate to string", st1))
  | _ + 1, .elems [] _ acc, st => .ok (.arr acc, st)
  | fuel + 1, .elems (n :: ns) i acc, st =>
    andThen (withScope (evalCore cfg frags fuel (.node n) (pushPath st (toString i))))
      (fun j st1 => evalCore cfg frags fuel (.elems ns (i + 1) (acc ++ [j])) st1)
  | fuel + 1, .tmpl result pos made, st =>
    match findFrom result cfg.delimiters.endD.toList pos with
    | none =>
      if made then evalCore cfg frags fuel (.tmpl result 0 false) st
      else .ok (.str (listAsStr result), st)
    | some ep =>
      match rfindUpTo result cfg.delimiters.start.toList ep with
      | none => evalCore cfg frags fuel (.tmpl result (ep + 1) made) st
      | some sp =>
        if sp < pos then evalCore cfg frags fuel (.tmpl result (ep + 1) made) st
        else
          let sl := cfg.delimiters.start.toList.length
          let el := cfg.delimiters.endD.toList.length
          let name := listAsStr (subList result (sp + sl) (ep - (sp + sl)))
          let stIn := pushPath st ("template:" ++ name)
          match lookupFrag frags name with
          | none =>
            match cfg.missing_fragment_behavior with
            | .Throw =>
              .error (wrapErr (mkFNF name) (popPath stIn), popPath stIn)
            | .LeaveUnresolved =>
              evalCore cfg frags fuel (.tmpl result (ep + 1) made) (popPath stIn)
            | .UseDefault =>
              match cfg.default_value with
              | .str d =>
                evalCore cfg frags fuel
                  (.tmpl (replaceRange result sp (ep + el - sp) d.toList) pos true)
                  (popPath stIn)
              | _ =>
                .error
                  (wrapErr (mkInvalidKey "Default value for string template must be string")
                    (popPath stIn), popPath stIn)
            | .Remove =>
              evalCore cfg frags fuel
                (.tmpl (replaceRange result sp (ep + el - sp) []) pos true) (popPath stIn)
          | some v =>
            match v with
            | .str s =>
              evalCore cfg frags fuel
                (.tmpl (replaceRange result sp (ep + el - sp) s.toList) pos true) (popPath stIn)
            | _ =>
              .error
                (wrapErr (mkInvalidKey ("Fragment in string template must resolve to string: "
                  ++ name)) (popPath stIn), popPath stIn)

/-- `FragmentParser::parse` specialised to one JSON value. -/
def parse (cfg : JsonResolverConfig) (frags : Frags) (fuel : Nat) (input : Json)
    (current : String) (st : St) : Except (Err × St) (Node × St) :=
  match parseCore cfg frags fuel (.one input current) st with
  | .error e => .error e
  | .ok (.node n, st1) => .ok (n, st1)
  | .ok (_, st1) => .ok (.literal .null, st1)

/-- Package an evaluation outcome as `resolve`'s return value together with
the context path left behind. -/
def finish : Except (Err × St) (Json × St) → Except Err Json × List String
  | .error (e, st) => (.error e, st.path)
  | .ok (j, st) => (.ok j, st.path)

/-- `JsonResolver::resolve` of the node-tree revision. `context_` is a member
of the resolver, so the path it holds persists between calls: the function
takes the context path accumulated so far and returns the context path as it
stands after the call. The start-fragment `push` has no matching `pop`. -/
def resolve (fuel : Nat) (cfg : JsonResolverConfig) (frags : Frags) (start : String)
    (ctxPath : List String) : Except Err Json × List String :=
  match lookupFrag frags start with
  | none => (.error (mkFNF start), ctxPath)
  | some v =>
    let st0 : St := ⟨[], start :: ctxPath, []⟩
    match parse cfg frags fuel v start st0 with
    | .error (e, st) => (.error e, st.path)
    | .ok (node, st1) => finish (evalCore cfg frags fuel (.node node) st1)

end RevB

namespace RevA

/-- `JsonResolver::is_fragment_reference` of the recursive revision:
length at least 2, first character `[`, last character `]`. -/
def is_fragment_reference (s : String) : Bool :=
  let l := s.toList
  decide (2 ≤ l.length) &&
    decide (l.take 1 = ['[']) &&
    decide (l.drop (l.length - 1) = [']'])

/-- `JsonResolver::extract_fragment_name`: `substr(1, length - 2)`. -/
def extract_fragment_name (s : String) : String :=
  listAsStr (subList s.toList 1 (s.toList.length - 2))

/-- The cycle message built by `resolve_fragment` when a name is already on
the processing stack: the name, then every member of the `std::set` in its
sorted iteration order, then the name again, joined by ` -> `. The stack is
modelled as a sorted list, so list order is iteration order. -/
def cycleStringA (name : String) (stack : List String) : String :=
  (stack.foldl (fun acc f => acc ++ " -> " ++ f) name) ++ " -> " ++ name

/-- Leftmost match of the regex `\[(.*?)\]`: the first `[`, lazily extended
to the first `]` after it. Returns the bracket positions. -/
def regexFind (l : List Char) : Option (Nat × Nat) :=
  match findFrom l ['['] 0 with
  | none => none
  | some i =>
    match findFrom l [']'] (i + 1) with
    | none => none
    | some j => some (i, j)

/-- Work items of the recursive revision: resolve a fragment by name
(`resolve_fragment`), process one value (`process_value`), an object's
remaining entries, an array's remaining elements, or the embedded-reference
loop over a string (`result`, `working_copy`). The processing stack rides
inside the task; exceptions abort the whole call, so no state is returned. -/
inductive ATask where
  | frag (name : String) (stack : List String)
  | val (j : Json) (stack : List String)
  | entries (kvs : List (String × Json)) (stack : List String) (acc : List (String × Json))
  | elems (xs : List Json) (stack : List String) (acc : List Json)
  | tmpl (result working : List Char) (stack : List String)

/-- `JsonResolver::resolve_fragment` / `process_value`, fuel-indexed. -/
def runA (frags : Frags) : Nat → ATask → Except Err Json
  | 0, _ => .error outOfFuelErr
  | fuel + 1, .frag name stack =>
    if setMem name stack then .error (mkCircular (cycleStringA name stack))
    else
      match lookupFrag frags name with
      | none => .error (mkFNF name)
      | some v => runA frags fuel (.val v (setInsert name stack))
  | fuel + 1, .val j stack =>
    match j with
    | .str s =>
      if is_fragment_reference s then
        runA frags fuel (.frag (extract_fragment_name s) stack)
      else
        runA frags fuel (.tmpl s.toList s.toList stack)
    | .obj kvs => runA frags fuel (.entries kvs stack [])
    | .arr xs => runA frags fuel (.elems xs stack [])
    | other => .ok other
  | fuel + 1, .tmpl result working stack =>
    match regexFind working with
    | none => .ok (.str (listAsStr result))
    | some (i, j) =>
      let name := listAsStr (subList working (i + 1) (j - i - 1))
      match runA frags fuel (.frag name stack) with
      | .error e => .error e
      | .ok resolved =>
        match resolved with
        | .str rs =>
          let search := '[' :: name.toList ++ [']']
          let result1 :=
            match findFrom result search 0 with
            | some p => replaceRange result p search.length rs.toList
            | none => result
          runA frags fuel (.tmpl result1 (working.drop (j + 1)) stack)
        | _ => .error (mkInvalidKey name)
  | _ + 1, .entries [] _ acc => .ok (.obj acc)
  | fuel + 1, .entries ((k, v) :: rest) stack acc =>
    if is_fragment_reference k then
      match runA frags fuel (.frag (extract_fragment_name k) stack) with
      | .error e => .error e
      | .ok kf =>
        match kf with
        | .str rk =>
          match runA frags fuel (.val v stack) with
          | .error e => .error e
          | .ok vj => runA frags fuel (.entries rest stack (objInsert acc rk vj))
        | _ => .error (mkInvalidKey k)
    else
      match runA frags fuel (.val v stack) with
      | .error e => .error e
      | .ok vj => runA frags fuel (.entries rest stack (objInsert acc k vj))
  | _ + 1, .elems [] _ acc => .ok (.arr acc)
  | fuel + 1, .elems (x :: xs) stack acc =>
    match runA frags fuel (.val x stack) with
    | .error e => .error e
    | .ok vj => runA frags fuel (.elems xs stack (acc ++ [vj]))

/-- `JsonResolver::resolve` of the recursive revision. -/
def resolve (fuel : Nat) (frags : Frags) (start : String) : Except Err Json :=
  runA frags fuel (.frag start [])

end RevA

/-- Extract the result state from a parse or evaluation outcome (both
branches carry the state, mirroring the by-reference mutation in the source). -/
def RevB.outSt {a : Type} : Except (Err × RevB.St) (a × RevB.St) → RevB.St
  | .ok (_, s) => s
  | .error (_, s) => s

/-- Extract the result state from a state-transforming step. -/
def RevB.outStD : Except (Err × RevB.St) RevB.St → RevB.St
  | .ok s => s
  | .error (_, s) => s

/-- The dynamic type of a thrown error, if any. -/
def errKindOf : Except Err Json → Option ErrKind
  | .error e => some e.kind
  | .ok _ => none

/-- The thrown error, if any. -/
def errOf : Except Err Json → Option Err
  | .error e => some e
  | .ok _ => none

/-- Configuration of the missing-fragment test: `UseDefault` with default `"N/A"`. -/
def cfgNA : JsonResolverConfig :=
  { missing_fragment_behavior := .UseDefault
    default_value := .str "N/A"
    delimiters := { start := "[", endD := "]" } }

/-- Fragments of the nested-depth scenario. -/
def c1Frags : Frags :=
  [("permissions", .arr [.str "read", .str "write"]),
   ("role", .obj [("permissions", .str "[permissions]"), ("title", .str "Admin")]),
   ("user", .obj [("name", .str "Alice"), ("role", .str "[role]")])]

/-- Fragments with a string that contains two delimited patterns. -/
def c2Frags : Frags := [("x", .str "[a] and [b]")]

/-- Fragments of the cycle scenario. -/
def c3Frags : Frags :=
  [("A", .arr [.str "ref", .str "[B]"]),
   ("B", .arr [.str "ref", .str "[C]"]),
   ("C", .arr [.str "ref", .str "[A]"])]

/-- Fragments of the template-composition scenario. -/
def c4Frags : Frags :=
  [("domain", .str "example.com"), ("port", .str "8080"), ("protocol", .str "https"),
   ("url", .str "[protocol]://[domain]:[port]/api")]

/-- A template referencing a fragment whose value is not a string. -/
def c4bFrags : Frags := [("num", .num 42), ("t", .str "x[num]y")]

/-- A template whose spliced-in fragment text introduces a further reference. -/
def c4cFrags : Frags :=
  [("inner", .str "w"), ("mid", .str "<[inner]>"), ("t2", .str "A[mid]B")]

/-- A document with a whole-value reference to an absent fragment. -/
def c5Frags : Frags := [("doc", .obj [("x", .str "[absent]")])]

/-- An object whose key is a reference resolving to a number. -/
def c6Frags : Frags := [("invalid", .obj [("[number]", .str "value")]), ("number", .num 42)]

/-- A fragment whose string value re-introduces a reference to itself inside
template text. -/
def c8Frags : Frags := [("x", .str "[x]"), ("y", .str "a[x]")]

/-- A trivially resolvable collection. -/
def c10aFrags : Frags := [("a", .num 1)]

/-- A collection whose resolution fails inside a template. -/
def c10bFrags : Frags := [("n", .num 42), ("u", .str "z[n]")]

/-- C1 (code bug): in the node-tree revision, `ReferenceNode::evaluate` returns
the target fragment's raw stored value, so resolving `user` leaves
`role.permissions` as the unresolved text `"[permissions]"`; the recursive
revision fully expands it to the array `["read","write"]` as the claim, the
README, and the design document require. -/
theorem c1_reference_node_returns_raw :
    (RevB.resolve 40 defaultConfig c1Frags "user" []).1 =
      .ok (.obj [("name", .str "Alice"),
        ("role", .obj [("permissions", .str "[permissions]"), ("title", .str "Admin")])]) ∧
    RevA.resolve 40 c1Frags "user" =
      .ok (.obj [("name", .str "Alice"),
        ("role", .obj [("permissions", .arr [.str "read", .str "write"]),
          ("title", .str "Admin")])]) :=
  ⟨rfl, rfl⟩

/-- C2 (counterexample): `"[a] and [b]"` merely contains the delimited pattern
inside, yet `is_complete_fragment_reference` classifies it as a whole-value
reference and the parser emits a Reference node named `"a] and [b"`, not a
templated-string node. -/
theorem c2_counterexample :
    RevB.is_complete_fragment_reference defaultConfig "[a] and [b]" = true ∧
    RevB.parseCore defaultConfig c2Frags 40 (.one (.str "[a] and [b]") "x") ⟨[], [], []⟩ =
      .ok (.node (.ref "a] and [b"), ⟨[], [], [("x", ["a] and [b"])]⟩) :=
  ⟨rfl, rfl⟩

/-- C3 (counterexample): resolving `A` in the cycle `A -> B -> C -> A` does
fail with `CircularDependencyError`, but the message carries the tracker's DFS
path `C -> A -> B -> C -> C`, and the claimed text `A -> B -> C -> A` does not
occur in it. -/
theorem c3_counterexample :
    (RevB.resolve 40 defaultConfig c3Frags "A" []).1 =
      .error ⟨.circularDependency,
        "Circular dependency detected: C -> A -> B -> C -> C"⟩ ∧
    containsSub "Circular dependency detected: C -> A -> B -> C -> C".toList
      "A -> B -> C -> A".toList = false :=
  ⟨rfl, rfl⟩

/-- C3 (amended): resolving `A` fails with `CircularDependencyError` in both
revisions; the node-tree revision's message is the dependency tracker's DFS
path from the fragment whose new edge closed the cycle, with that fragment
repeated (`C -> A -> B -> C -> C`); the recursive revision's message is the
current name followed by the sorted processing set and the name again
(`A -> A -> B -> C -> A`). -/
theorem c3_cycle_error_messages :
    (RevB.resolve 40 defaultConfig c3Frags "A" []).1 =
      .error (mkCircular "C -> A -> B -> C -> C") ∧
    RevA.resolve 40 c3Frags "A" = .error (mkCircular "A -> A -> B -> C -> A") :=
  ⟨rfl, rfl⟩

/-- C4 (counterexample): a template reference to a non-string fragment does
fail, but the `InvalidKeyError` raised inside the template loop is caught and
rethrown as the base error class with the path appended, so the surfaced
classification is `general`, not the invalid-key kind the claim requires. -/
theorem c4_counterexample :
    (RevB.resolve 40 defaultConfig c4bFrags "t" []).1 =
      .error ⟨.general,
        "Fragment used as key must resolve to a string: Fragment in string template must resolve to string: num at /t"⟩ ∧
    errKindOf (RevB.resolve 40 defaultConfig c4bFrags "t" []).1 ≠ some ErrKind.invalidKey :=
  ⟨rfl, by decide⟩

/-- C4 (amended): templated strings are scanned left-to-right for the
earliest-closing delimiter pair, matched spans are replaced by the referenced
fragment's string value, and scanning repeats so spliced-in text can introduce
further matches; the url example resolves as claimed; a non-string fragment
fails, surfaced as the base (general) error whose message names the offending
fragment. -/
theorem c4_template_scan :
    (RevB.resolve 40 defaultConfig c4Frags "url" []).1 =
      .ok (.str "https://example.com:8080/api") ∧
    (RevB.resolve 40 defaultConfig c4cFrags "t2" []).1 = .ok (.str "A<w>B") ∧
    (RevB.resolve 40 defaultConfig c4bFrags "t" []).1 =
      .error ⟨.general,
        "Fragment used as key must resolve to a string: Fragment in string template must resolve to string: num at /t"⟩ ∧
    containsSub
      "Fragment used as key must resolve to a string: Fragment in string template must resolve to string: num at /t".toList
      "num".toList = true :=
  ⟨rfl, rfl, rfl, rfl⟩

/-- C6 (counterexample): resolving `invalid` fails with `InvalidKeyError`, but
in the node-tree revision the message is the generic
`Object key must evaluate to string`: the offending fragment name `number`
appears nowhere in it. -/
theorem c6_counterexample :
    (RevB.resolve 40 defaultConfig c6Frags "invalid" []).1 =
      .error (mkInvalidKey "Object key must evaluate to string") ∧
    containsSub
      "Fragment used as key must resolve to a string: Object key must evaluate to string".toList
      "number".toList = false :=
  ⟨rfl, rfl⟩

/-- C6 (amended): an object key that evaluates to a non-string value fails
with `InvalidKeyError` in both revisions; the node-tree revision's message is
the generic `Object key must evaluate to string`, while the recursive revision
names the raw key text `[number]`. -/
theorem c6_invalid_key_messages :
    (RevB.resolve 40 defaultConfig c6Frags "invalid" []).1 =
      .error (mkInvalidKey "Object key must evaluate to string") ∧
    RevA.resolve 40 c6Frags "invalid" = .error (mkInvalidKey "[number]") :=
  ⟨rfl, rfl⟩

/-- C7 (counterexample): `evaluate_fragment_dependencies` skips a missing
fragment (`return` on failed lookup), so construction of the tree for `doc`
succeeds, emitting a Reference node for `absent` and recording the dependency
edge; no construction-time `FragmentNotFound` is raised. -/
theorem c7_counterexample :
    RevB.parseCore defaultConfig c5Frags 40
        (.one (.obj [("x", .str "[absent]")]) "doc") ⟨[], ["doc"], []⟩ =
      .ok (.node (.object [(.literal (.str "x"), .ref "absent")]),
        ⟨[], ["doc"], [("doc", ["absent"])]⟩) :=
  rfl

/-- C7 (amended): a whole-value reference to a missing fragment is skipped at
construction time (the parser records the dependency edge and builds the
Reference node); under the `Throw` policy the `FragmentNotFound` error
surfaces only when the node is evaluated. -/
theorem c7_missing_deferred :
    RevB.parse defaultConfig c5Frags 40 (.obj [("x", .str "[absent]")]) "doc"
        ⟨[], ["doc"], []⟩ =
      .ok (.object [(.literal (.str "x"), .ref "absent")],
        ⟨[], ["doc"], [("doc", ["absent"])]⟩) ∧
    (RevB.resolve 40 defaultConfig c5Frags "doc" []).1 = .error (mkFNF "absent") :=
  ⟨rfl, rfl⟩

/-- C10 (counterexample): the evaluation context is a member of the resolver
and `resolve` pushes the start fragment without ever popping it, so per-call
state persists: after one call the context path is `["a"]`, not the initial
empty path, and two successive identical failing calls report different
error messages (the path doubles). -/
theorem c10_counterexample :
    (RevB.resolve 40 defaultConfig c10aFrags "a" []).2 = ["a"] ∧
    (["a"] : List String) ≠ [] ∧
    errOf (RevB.resolve 40 defaultConfig c10bFrags "u" []).1 ≠
      errOf (RevB.resolve 40 defaultConfig c10bFrags "u"
        ((RevB.resolve 40 defaultConfig c10bFrags "u" []).2)).1 :=
  ⟨rfl, by decide, by decide⟩

/-- C5: when a whole-value Reference node's target is absent,
`ReferenceNode::evaluate` follows the configured policy exactly: `Throw` fails
with `FragmentNotFoundError`, `LeaveUnresolved` returns the delimited text,
`UseDefault` returns the configured default value, `Remove` returns the empty
string; and with `UseDefault`/`"N/A"` the document `{"x":"[absent]"}` resolves
to `{"x":"N/A"}`. -/
theorem c5_missing_policy :
    (∀ (fuel : Nat) (cfg : JsonResolverConfig) (frags : Frags) (name : String) (st : RevB.St),
      lookupFrag frags name = none →
      RevB.evalCore cfg frags (fuel + 1) (.node (.ref name)) st =
        match cfg.missing_fragment_behavior with
        | .Throw => .error (mkFNF name, st)
        | .LeaveUnresolved =>
          .ok (.str (cfg.delimiters.start ++ name ++ cfg.delimiters.endD), st)
        | .UseDefault => .ok (cfg.default_value, st)
        | .Remove => .ok (.str "", st)) ∧
    (RevB.resolve 40 cfgNA c5Frags "doc" []).1 = .ok (.obj [("x", .str "N/A")]) := by
  constructor
  · intro fuel cfg frags name st h
    simp only [RevB.evalCore, h]
  · rfl

/-- C5 witness: the policy theorem applied to the `UseDefault`/`"N/A"`
configuration with an absent fragment name in an empty collection. -/
theorem c5_missing_policy_witness :
    RevB.evalCore cfgNA [] 1 (.node (.ref "absent")) ⟨[], [], []⟩ =
      .ok (.str "N/A", ⟨[], [], []⟩) := by
  have h := c5_missing_policy.1 0 cfgNA [] "absent" ⟨[], [], []⟩ rfl
  exact h

/-- One scan step of the template loop on `"a[x]"` with `x = "[x]"` replaces
the span by the identical text and loops with the same state, for any value
of `made_changes`. -/
theorem c8_scan_step (n : Nat) : ∀ b : Bool,
    RevB.evalCore defaultConfig c8Frags n (.tmpl "a[x]".toList 0 b) ⟨[], ["y"], []⟩ =
      .error (outOfFuelErr, ⟨[], ["y"], []⟩) := by
  induction n with
  | zero => intro b; rfl
  | succ k ih =>
    intro b
    show RevB.evalCore defaultConfig c8Frags k (.tmpl "a[x]".toList 0 true) ⟨[], ["y"], []⟩ =
      .error (outOfFuelErr, ⟨[], ["y"], []⟩)
    exact ih true

/-- C8 (code bug): with `x = "[x]"` and `y = "a[x]"`, the template rescanning
loop of `StringTemplateNode::evaluate` replaces `[x]` by `[x]` forever, so
`resolve` never terminates: the fuel-indexed evaluation exhausts any amount of
fuel. -/
theorem c8_template_loop_diverges :
    ∀ fuel : Nat, (RevB.resolve fuel defaultConfig c8Frags "y" []).1 = .error outOfFuelErr := by
  intro fuel
  cases fuel with
  | zero => rfl
  | succ n =>
    have h := c8_scan_step n false
    change (RevB.finish (RevB.evalCore defaultConfig c8Frags n
      (.tmpl "a[x]".toList 0 false) ⟨[], ["y"], []⟩)).1 = .error outOfFuelErr
    rw [h]
    rfl

/-- `String.toList` distributes over append. -/
theorem strToList_append (a b : String) : (a ++ b).toList = a.toList ++ b.toList := by
  cases a; cases b; rfl

/-- `listAsStr` inverts `String.toList`. -/
theorem listAsStr_toList (s : String) : listAsStr s.toList = s := rfl

/-- C2 (amended): a string is classified as a whole-value reference exactly
when its entire content is the start delimiter, then some (possibly
delimiter-containing) text, then the end delimiter; the extracted name is the
exact text between the delimiter prefix and suffix, with no trimming. A string
that contains the delimited pattern with other text around it (such as
`"[a] and [b]"`, which is `[` ++ `a] and [b` ++ `]`) therefore also counts as
a whole-value reference; only strings failing the prefix/suffix test are
classified as templated. -/
theorem c2_whole_value_rule (cfg : JsonResolverConfig) (s : String) :
    (RevB.is_complete_fragment_reference cfg s = true ↔
      ∃ mid : List Char,
        s.toList = cfg.delimiters.start.toList ++ (mid ++ cfg.delimiters.endD.toList)) ∧
    ∀ name : String,
      RevB.extract_fragment_name cfg (cfg.delimiters.start ++ name ++ cfg.delimiters.endD)
        = name := by
  constructor
  · unfold RevB.is_complete_fragment_reference
    simp only [Bool.and_eq_true, decide_eq_true_eq]
    constructor
    · rintro ⟨⟨hlen, hpre⟩, hsuf⟩
      refine ⟨(s.toList.drop cfg.delimiters.start.toList.length).take
        (s.toList.length - cfg.delimiters.start.toList.length
          - cfg.delimiters.endD.toList.length), ?_⟩
      have h1 : s.toList = cfg.delimiters.start.toList ++
          s.toList.drop cfg.delimiters.start.toList.length := by
        conv_lhs => rw [← List.take_append_drop cfg.delimiters.start.toList.length s.toList]
        rw [hpre]
      have h2 : s.toList.drop cfg.delimiters.start.toList.length =
          (s.toList.drop cfg.delimiters.start.toList.length).take
            (s.toList.length - cfg.delimiters.start.toList.length
              - cfg.delimiters.endD.toList.length) ++
            s.toList.drop (s.toList.length - cfg.delimiters.endD.toList.length) := by
        conv_lhs =>
          rw [← List.take_append_drop
            (s.toList.length - cfg.delimiters.start.toList.length
              - cfg.delimiters.endD.toList.length)
            (s.toList.drop cfg.delimiters.start.toList.length)]
        rw [List.drop_drop]
        congr 2
        omega
      calc s.toList
          = cfg.delimiters.start.toList ++
              s.toList.drop cfg.delimiters.start.toList.length := h1
        _ = cfg.delimiters.start.toList ++
              ((s.toList.drop cfg.delimiters.start.toList.length).take
                (s.toList.length - cfg.delimiters.start.toList.length
                  - cfg.delimiters.endD.toList.length) ++
                s.toList.drop (s.toList.length - cfg.delimiters.endD.toList.length)) := by
            rw [← h2]
        _ = _ := by rw [hsuf]
    · rintro ⟨mid, hmid⟩
      have hlen : s.toList.length = cfg.delimiters.start.toList.length + mid.length
          + cfg.delimiters.endD.toList.length := by
        rw [hmid]; simp [List.length_append]; omega
      refine ⟨⟨by omega, ?_⟩, ?_⟩
      · rw [hmid]; exact List.take_left _ _
      · have hassoc : cfg.delimiters.start.toList ++ (mid ++ cfg.delimiters.endD.toList) =
            (cfg.delimiters.start.toList ++ mid) ++ cfg.delimiters.endD.toList :=
          (List.append_assoc _ _ _).symm
        rw [hmid, hassoc]
        have hlen2 : ((cfg.delimiters.start.toList ++ mid) ++ cfg.delimiters.endD.toList).length
            - cfg.delimiters.endD.toList.length =
            (cfg.delimiters.start.toList ++ mid).length := by
          simp [List.length_append]
          omega
        rw [hlen2]
        exact List.drop_left _ _
  · intro name
    have h0 : (cfg.delimiters.start ++ name ++ cfg.delimiters.endD).toList =
        cfg.delimiters.start.toList ++ (name.toList ++ cfg.delimiters.endD.toList) := by
      rw [strToList_append, strToList_append, List.append_assoc]
    simp only [RevB.extract_fragment_name, subList, h0]
    have hdrop : (cfg.delimiters.start.toList ++ (name.toList ++ cfg.delimiters.endD.toList)).drop
        cfg.delimiters.start.toList.length = name.toList ++ cfg.delimiters.endD.toList :=
      List.drop_left _ _
    have hlen : (cfg.delimiters.start.toList ++ (name.toList ++ cfg.delimiters.endD.toList)).length
        - cfg.delimiters.start.toList.length - cfg.delimiters.endD.toList.length =
        name.toList.length := by
      simp [List.length_append]
    rw [hdrop, hlen, List.take_left]
    exact listAsStr_toList name

/-- Splitting a failed set-membership test on a cons cell. -/
theorem setMem_cons_false {x y : String} {ys : List String}
    (h : setMem x (y :: ys) = false) : x ≠ y ∧ setMem x ys = false := by
  by_cases hxy : x = y
  · simp [setMem, hxy] at h
  · simp [setMem, hxy] at h
    exact ⟨hxy, h⟩

/-- Erasing a freshly inserted element restores the set, provided it was not
already present (which `begin_evaluation` guarantees). -/
theorem setErase_setInsert {x : String} {l : List String}
    (h : setMem x l = false) : setErase x (setInsert x l) = l := by
  induction l with
  | nil => simp [setInsert, setErase]
  | cons y ys ih =>
    obtain ⟨hxy, hmem⟩ := setMem_cons_false h
    by_cases hlt : strLtB x y = true
    · simp [setInsert, hxy, hlt, setErase]
    · simp [setInsert, hxy, hlt, setErase, Ne.symm hxy]
      exact ih hmem

/-- Popping an immediately pushed path component is the identity. -/
theorem popPath_pushPath (s : RevB.St) (c : String) :
    RevB.popPath (RevB.pushPath s c) = s := rfl

/-- Popping never touches the in-progress set. -/
theorem popPath_evaluating (s : RevB.St) : (RevB.popPath s).evaluating = s.evaluating := by
  unfold RevB.popPath
  split <;> rfl

/-- Popping removes exactly the head path component. -/
theorem popPath_path_cons {s : RevB.St} {c : String} {r : List String}
    (h : s.path = c :: r) : (RevB.popPath s).path = r := by
  unfold RevB.popPath
  split
  · simp_all
  · rename_i c' r' h'
    rw [h] at h'
    injection h' with h1 h2
    exact h2.symm

/-- `add_dependency` mutates only the dependency graph: an error leaves the
in-progress set and the path as they were. -/
theorem addDependency_error_st {st : RevB.St} {a b : String} {e : Err} {s1 : RevB.St}
    (h : RevB.addDependency st a b = .error (e, s1)) :
    s1.evaluating = st.evaluating ∧ s1.path = st.path := by
  unfold RevB.addDependency at h
  split at h
  · cases h
  · simp only [] at h
    split at h
    · cases h; exact ⟨rfl, rfl⟩
    · cases h

/-- `add_dependency` mutates only the dependency graph on success as well. -/
theorem addDependency_ok_st {st : RevB.St} {a b : String} {s1 : RevB.St}
    (h : RevB.addDependency st a b = .ok s1) :
    s1.evaluating = st.evaluating ∧ s1.path = st.path := by
  unfold RevB.addDependency at h
  split at h
  · cases h; exact ⟨rfl, rfl⟩
  · simp only [] at h
    split at h
    · cases h
    · cases h; exact ⟨rfl, rfl⟩

/-- Preservation through exception propagation: if the first step restores the
in-progress set and path, and every continuation restores them from its own
entry state, the sequence restores them. -/
theorem andThen_restores {a b : Type} {st : RevB.St}
    {r : Except (Err × RevB.St) (a × RevB.St)}
    {k : a → RevB.St → Except (Err × RevB.St) (b × RevB.St)}
    (hr : (RevB.outSt r).evaluating = st.evaluating ∧ (RevB.outSt r).path = st.path)
    (hk : ∀ x s, (RevB.outSt (k x s)).evaluating = s.evaluating ∧
      (RevB.outSt (k x s)).path = s.path) :
    (RevB.outSt (RevB.andThen r k)).evaluating = st.evaluating ∧
      (RevB.outSt (RevB.andThen r k)).path = st.path := by
  cases r with
  | error e => exact hr
  | ok p =>
    obtain ⟨x, s⟩ := p
    simp only [RevB.outSt] at hr
    exact ⟨((hk x s).1).trans hr.1, ((hk x s).2).trans hr.2⟩

/-- Preservation through a state-transforming step followed by a continuation. -/
theorem andThenSt_restores {b : Type} {st : RevB.St}
    {r : Except (Err × RevB.St) RevB.St}
    {k : RevB.St → Except (Err × RevB.St) (b × RevB.St)}
    (hr : (RevB.outStD r).evaluating = st.evaluating ∧ (RevB.outStD r).path = st.path)
    (hk : ∀ s, (RevB.outSt (k s)).evaluating = s.evaluating ∧
      (RevB.outSt (k s)).path = s.path) :
    (RevB.outSt (RevB.andThenSt r k)).evaluating = st.evaluating ∧
      (RevB.outSt (RevB.andThenSt r k)).path = st.path := by
  cases r with
  | error e => exact hr
  | ok s =>
    simp only [RevB.outStD] at hr
    exact ⟨((hk s).1).trans hr.1, ((hk s).2).trans hr.2⟩

/-- `add_dependency` restores (indeed never touches) the in-progress set and
the path. -/
theorem addDependency_restores (st : RevB.St) (a b : String) :
    (RevB.outStD (RevB.addDependency st a b)).evaluating = st.evaluating ∧
      (RevB.outStD (RevB.addDependency st a b)).path = st.path := by
  cases h : RevB.addDependency st a b with
  | error e =>
    obtain ⟨e1, s1⟩ := e
    exact addDependency_error_st h
  | ok s1 => exact addDependency_ok_st h

/-- The guard discipline: if the guarded body's result state carries exactly
the freshly inserted in-progress entry, destroying the guard restores the set,
on the error branch as well. -/
theorem withGuard_restores {a : Type} {name : String} {st : RevB.St}
    {r : Except (Err × RevB.St) (a × RevB.St)}
    (hmem : setMem name st.evaluating = false)
    (hr : (RevB.outSt r).evaluating = setInsert name st.evaluating ∧
      (RevB.outSt r).path = st.path) :
    (RevB.outSt (RevB.withGuard name r)).evaluating = st.evaluating ∧
      (RevB.outSt (RevB.withGuard name r)).path = st.path := by
  cases r with
  | error e =>
    obtain ⟨e1, s2⟩ := e
    simp only [RevB.outSt] at hr
    refine ⟨?_, hr.2⟩
    show setErase name s2.evaluating = st.evaluating
    rw [hr.1]
    exact setErase_setInsert hmem
  | ok p =>
    obtain ⟨x, s2⟩ := p
    simp only [RevB.outSt] at hr
    refine ⟨?_, hr.2⟩
    show setErase name s2.evaluating = st.evaluating
    rw [hr.1]
    exact setErase_setInsert hmem

/-- The scoped-component discipline: if the body's result state carries
exactly the pushed component on top of the entry path, destroying the scope
restores the path, on the error branch as well. -/
theorem withScope_restores {a : Type} {st : RevB.St} {c : String}
    {r : Except (Err × RevB.St) (a × RevB.St)}
    (hr : (RevB.outSt r).evaluating = st.evaluating ∧
      (RevB.outSt r).path = c :: st.path) :
    (RevB.outSt (RevB.withScope r)).evaluating = st.evaluating ∧
      (RevB.outSt (RevB.withScope r)).path = st.path := by
  cases r with
  | error e =>
    obtain ⟨e1, s2⟩ := e
    simp only [RevB.outSt] at hr
    exact ⟨(popPath_evaluating s2).trans hr.1, popPath_path_cons hr.2⟩
  | ok p =>
    obtain ⟨x, s2⟩ := p
    simp only [RevB.outSt] at hr
    exact ⟨(popPath_evaluating s2).trans hr.1, popPath_path_cons hr.2⟩

/-- Tree construction restores the in-progress set and the path stack on
every exit, successful or failed. -/
theorem parseCore_restores (cfg : JsonResolverConfig) (frags : Frags) :
    ∀ (fuel : Nat) (task : RevB.ParseTask) (st : RevB.St),
      (RevB.outSt (RevB.parseCore cfg frags fuel task st)).evaluating = st.evaluating ∧
      (RevB.outSt (RevB.parseCore cfg frags fuel task st)).path = st.path := by
  intro fuel
  induction fuel with
  | zero => intro task st; exact ⟨rfl, rfl⟩
  | succ n ih =>
    intro task st
    cases task with
    | one j current =>
      cases j with
      | null => exact ⟨rfl, rfl⟩
      | bool b => exact ⟨rfl, rfl⟩
      | num m => exact ⟨rfl, rfl⟩
      | str s =>
        simp only [RevB.parseCore]
        split
        · split
          · exact andThenSt_restores (addDependency_restores st current _)
              (fun st1 => andThen_restores (ih (.fragDeps _) st1) (fun x s => ⟨rfl, rfl⟩))
          · exact ⟨rfl, rfl⟩
        · split
          · exact ⟨rfl, rfl⟩
          · exact ⟨rfl, rfl⟩
      | arr xs =>
        exact andThen_restores (ih (.elems xs current []) st) (fun x s => ⟨rfl, rfl⟩)
      | obj kvs =>
        exact andThen_restores (ih (.entries kvs current []) st) (fun x s => ⟨rfl, rfl⟩)
    | entries kvs current acc =>
      cases kvs with
      | nil => exact ⟨rfl, rfl⟩
      | cons kv rest =>
        obtain ⟨k, v⟩ := kv
        simp only [RevB.parseCore]
        refine andThen_restores ?_ (fun kn st1 =>
          andThen_restores (ih (.one v current) st1) (fun outv st2 =>
            ih (.entries rest current (acc ++ [(kn, RevB.outNode outv)])) st2))
        split
        · split
          · exact andThenSt_restores (addDependency_restores st current _)
              (fun st1 => andThen_restores (ih (.fragDeps _) st1) (fun x s => ⟨rfl, rfl⟩))
          · exact ⟨rfl, rfl⟩
        · exact ⟨rfl, rfl⟩
    | elems xs current acc =>
      cases xs with
      | nil => exact ⟨rfl, rfl⟩
      | cons x rest =>
        simp only [RevB.parseCore]
        exact andThen_restores (ih (.one x current) st) (fun outx st1 =>
          ih (.elems rest current (acc ++ [RevB.outNode outx])) st1)
    | fragDeps name =>
      simp only [RevB.parseCore]
      split
      · exact ⟨rfl, rfl⟩
      · rename_i v hv
        split
        · exact ⟨rfl, rfl⟩
        · rename_i hM
          have hM' : setMem name st.evaluating = false := by
            cases h2 : setMem name st.evaluating
            · rfl
            · exact absurd h2 hM
          exact andThen_restores
            (withGuard_restores hM' (ih (.one v name)
              { st with evaluating := setInsert name st.evaluating }))
            (fun x s => ⟨rfl, rfl⟩)

/-- Node evaluation restores the in-progress set and the path stack on every
exit, successful or failed. -/
theorem evalCore_restores (cfg : JsonResolverConfig) (frags : Frags) :
    ∀ (fuel : Nat) (task : RevB.EvalTask) (st : RevB.St),
      (RevB.outSt (RevB.evalCore cfg frags fuel task st)).evaluating = st.evaluating ∧
      (RevB.outSt (RevB.evalCore cfg frags fuel task st)).path = st.path := by
  intro fuel
  induction fuel with
  | zero => intro task st; exact ⟨rfl, rfl⟩
  | succ n ih =>
    intro task st
    cases task with
    | node nd =>
      cases nd with
      | literal v => exact ⟨rfl, rfl⟩
      | ref name =>
        simp only [RevB.evalCore]
        split
        · split <;> exact ⟨rfl, rfl⟩
        · exact ⟨rfl, rfl⟩
      | template text => exact ih (.tmpl text.toList 0 false) st
      | object es => exact ih (.entries es []) st
      | array ns => exact ih (.elems ns 0 []) st
    | entries es acc =>
      cases es with
      | nil => exact ⟨rfl, rfl⟩
      | cons kv rest =>
        obtain ⟨kn, vn⟩ := kv
        simp only [RevB.evalCore]
        refine andThen_restores (ih (.node kn) st) ?_
        intro kj st1
        cases kj with
        | str k =>
          exact andThen_restores
            (withScope_restores (ih (.node vn) (RevB.pushPath st1 k)))
            (fun vj st2 => ih (.entries rest (objInsert acc k vj)) st2)
        | null => exact ⟨rfl, rfl⟩
        | bool b => exact ⟨rfl, rfl⟩
        | num m => exact ⟨rfl, rfl⟩
        | arr a2 => exact ⟨rfl, rfl⟩
        | obj o2 => exact ⟨rfl, rfl⟩
    | elems ns i acc =>
      cases ns with
      | nil => exact ⟨rfl, rfl⟩
      | cons nd rest =>
        simp only [RevB.evalCore]
        exact andThen_restores
          (withScope_restores (ih (.node nd) (RevB.pushPath st (toString i))))
          (fun j st1 => ih (.elems rest (i + 1) (acc ++ [j])) st1)
    | tmpl result pos made =>
      simp only [RevB.evalCore]
      split
      · split
        · exact ih (.tmpl result 0 false) st
        · exact ⟨rfl, rfl⟩
      · rename_i ep hep
        split
        · exact ih (.tmpl result (ep + 1) made) st
        · rename_i sp hsp
          split
          · exact ih (.tmpl result (ep + 1) made) st
          · split
            · split
              · exact ⟨rfl, rfl⟩
              · exact ih (.tmpl result (ep + 1) made) _
              · split
                · exact ih _ _
                · exact ⟨rfl, rfl⟩
              · exact ih _ _
            · split
              · exact ih _ _
              · exact ⟨rfl, rfl⟩

/-- C9: within one resolve call, the dependency tracker's in-progress set and
the evaluation context's path stack follow strict stack discipline: every
insertion and every path push made on entering a scope is undone when the
scope exits, on failure paths as well as success paths, so tree construction
and node evaluation return the set and the path exactly as they found them. -/
theorem c9_stack_discipline :
    (∀ (cfg : JsonResolverConfig) (frags : Frags) (fuel : Nat)
        (task : RevB.ParseTask) (st : RevB.St),
      (RevB.outSt (RevB.parseCore cfg frags fuel task st)).evaluating = st.evaluating ∧
      (RevB.outSt (RevB.parseCore cfg frags fuel task st)).path = st.path) ∧
    (∀ (cfg : JsonResolverConfig) (frags : Frags) (fuel : Nat)
        (task : RevB.EvalTask) (st : RevB.St),
      (RevB.outSt (RevB.evalCore cfg frags fuel task st)).evaluating = st.evaluating ∧
      (RevB.outSt (RevB.evalCore cfg frags fuel task st)).path = st.path) :=
  ⟨fun cfg frags => parseCore_restores cfg frags,
   fun cfg frags => evalCore_restores cfg frags⟩

/-- Agreement of two evaluation states up to the diagnostic path: the
in-progress set and the dependency graph coincide; only the path may differ. -/
def RevB.SRel (s t : RevB.St) : Prop := s.evaluating = t.evaluating ∧ s.deps = t.deps

/-- Agreement of two outcomes up to the diagnostic path: the same branch is
taken, success payloads are equal, and the result states agree up to the
path. Error payloads may differ, because error messages embed the path. -/
def RevB.RRel {a : Type} :
    Except (Err × RevB.St) (a × RevB.St) → Except (Err × RevB.St) (a × RevB.St) → Prop
  | .ok (x, s), .ok (y, t) => x = y ∧ RevB.SRel s t
  | .error (_, s), .error (_, t) => RevB.SRel s t
  | _, _ => False

/-- `RRel` for state-transforming steps. -/
def RevB.DRel : Except (Err × RevB.St) RevB.St → Except (Err × RevB.St) RevB.St → Prop
  | .ok s, .ok t => RevB.SRel s t
  | .error (_, s), .error (_, t) => RevB.SRel s t
  | _, _ => False

/-- Synchronization through exception propagation. -/
theorem andThen_sync {a b : Type}
    {r r' : Except (Err × RevB.St) (a × RevB.St)}
    {k : a → RevB.St → Except (Err × RevB.St) (b × RevB.St)}
    (hr : RevB.RRel r r')
    (hk : ∀ x s t, RevB.SRel s t → RevB.RRel (k x s) (k x t)) :
    RevB.RRel (RevB.andThen r k) (RevB.andThen r' k) := by
  cases r with
  | error e =>
    obtain ⟨e1, s⟩ := e
    cases r' with
    | error e' => obtain ⟨e2, t⟩ := e'; exact hr
    | ok p => exact hr.elim
  | ok p =>
    obtain ⟨x, s⟩ := p
    cases r' with
    | error e' => exact hr.elim
    | ok p' =>
      obtain ⟨y, t⟩ := p'
      obtain ⟨hxy, hst⟩ := hr
      cases hxy
      exact hk x s t hst

/-- Synchronization through a state-transforming step. -/
theorem andThenSt_sync {b : Type}
    {r r' : Except (Err × RevB.St) RevB.St}
    {k : RevB.St → Except (Err × RevB.St) (b × RevB.St)}
    (hr : RevB.DRel r r')
    (hk : ∀ s t, RevB.SRel s t → RevB.RRel (k s) (k t)) :
    RevB.RRel (RevB.andThenSt r k) (RevB.andThenSt r' k) := by
  cases r with
  | error e =>
    obtain ⟨e1, s⟩ := e
    cases r' with
    | error e' => obtain ⟨e2, t⟩ := e'; exact hr
    | ok t => exact hr.elim
  | ok s =>
    cases r' with
    | error e' => exact hr.elim
    | ok t => exact hk s t hr

/-- `add_dependency` acts identically on states that agree up to the path. -/
theorem addDependency_sync {s t : RevB.St} (a b : String) (h : RevB.SRel s t) :
    RevB.DRel (RevB.addDependency s a b) (RevB.addDependency t a b) := by
  unfold RevB.addDependency
  rw [← h.2]
  split
  · exact h
  · simp only []
    split
    · exact ⟨h.1, rfl⟩
    · exact ⟨h.1, rfl⟩

/-- `FragmentEvaluationGuard` destruction preserves synchronization. -/
theorem withGuard_sync {a : Type} {name : String}
    {r r' : Except (Err × RevB.St) (a × RevB.St)} (hr : RevB.RRel r r') :
    RevB.RRel (RevB.withGuard name r) (RevB.withGuard name r') := by
  cases r with
  | error e =>
    obtain ⟨e1, s⟩ := e
    cases r' with
    | error e' =>
      obtain ⟨e2, t⟩ := e'
      exact ⟨by show setErase name s.evaluating = setErase name t.evaluating; rw [hr.1], hr.2⟩
    | ok p => exact hr.elim
  | ok p =>
    obtain ⟨x, s⟩ := p
    cases r' with
    | error e' => exact hr.elim
    | ok p' =>
      obtain ⟨y, t⟩ := p'
      obtain ⟨hxy, hst⟩ := hr
      cases hxy
      exact ⟨rfl,
        by show setErase name s.evaluating = setErase name t.evaluating; rw [hst.1], hst.2⟩

/-- Only the path is touched by `pop`, so scope destruction preserves
synchronization. -/
theorem popPath_deps (s : RevB.St) : (RevB.popPath s).deps = s.deps := by
  unfold RevB.popPath
  split <;> rfl

/-- `ScopedComponent` destruction preserves synchronization. -/
theorem withScope_sync {a : Type}
    {r r' : Except (Err × RevB.St) (a × RevB.St)} (hr : RevB.RRel r r') :
    RevB.RRel (RevB.withScope r) (RevB.withScope r') := by
  cases r with
  | error e =>
    obtain ⟨e1, s⟩ := e
    cases r' with
    | error e' =>
      obtain ⟨e2, t⟩ := e'
      exact ⟨(popPath_evaluating s).trans (hr.1.trans (popPath_evaluating t).symm),
        (popPath_deps s).trans (hr.2.trans (popPath_deps t).symm)⟩
    | ok p => exact hr.elim
  | ok p =>
    obtain ⟨x, s⟩ := p
    cases r' with
    | error e' => exact hr.elim
    | ok p' =>
      obtain ⟨y, t⟩ := p'
      obtain ⟨hxy, hst⟩ := hr
      cases hxy
      exact ⟨rfl, (popPath_evaluating s).trans (hst.1.trans (popPath_evaluating t).symm),
        (popPath_deps s).trans (hst.2.trans (popPath_deps t).symm)⟩

/-- Tree construction is synchronized across states that agree up to the
path: the same branch is taken, the same node tree is produced, and the
in-progress set and dependency graph evolve identically. -/
theorem parseCore_sync (cfg : JsonResolverConfig) (frags : Frags) :
    ∀ (fuel : Nat) (task : RevB.ParseTask) (s t : RevB.St), RevB.SRel s t →
      RevB.RRel (RevB.parseCore cfg frags fuel task s)
        (RevB.parseCore cfg frags fuel task t) := by
  intro fuel
  induction fuel with
  | zero => intro task s t h; exact h
  | succ n ih =>
    intro task s t h
    cases task with
    | one j current =>
      cases j with
      | null => exact ⟨rfl, h⟩
      | bool b => exact ⟨rfl, h⟩
      | num m => exact ⟨rfl, h⟩
      | str s0 =>
        simp only [RevB.parseCore]
        by_cases hc : RevB.is_complete_fragment_reference cfg s0 = true
        · rw [if_pos hc, if_pos hc]
          by_cases hcur : current ≠ ""
          · rw [if_pos hcur, if_pos hcur]
            exact andThenSt_sync (addDependency_sync current _ h)
              (fun s1 t1 h1 => andThen_sync (ih (.fragDeps _) s1 t1 h1)
                (fun x s2 t2 h2 => ⟨rfl, h2⟩))
          · rw [if_neg hcur, if_neg hcur]
            exact ⟨rfl, h⟩
        · rw [if_neg hc, if_neg hc]
          by_cases hf : ((findFrom s0.toList cfg.delimiters.start.toList 0).isSome) = true
          · rw [if_pos hf, if_pos hf]
            exact ⟨rfl, h⟩
          · rw [if_neg hf, if_neg hf]
            exact ⟨rfl, h⟩
      | obj kvs =>
        exact andThen_sync (ih (.entries kvs current []) s t h)
          (fun out s1 t1 h1 => ⟨rfl, h1⟩)
      | arr xs =>
        exact andThen_sync (ih (.elems xs current []) s t h)
          (fun out s1 t1 h1 => ⟨rfl, h1⟩)
    | entries kvs current acc =>
      cases kvs with
      | nil => exact ⟨rfl, h⟩
      | cons kv rest =>
        obtain ⟨k, v⟩ := kv
        simp only [RevB.parseCore]
        refine andThen_sync ?_ (fun kn s1 t1 h1 =>
          andThen_sync (ih (.one v current) s1 t1 h1) (fun outv s2 t2 h2 =>
            ih (.entries rest current (acc ++ [(kn, RevB.outNode outv)])) s2 t2 h2))
        by_cases hc : RevB.is_complete_fragment_reference cfg k = true
        · rw [if_pos hc, if_pos hc]
          by_cases hcur : current ≠ ""
          · rw [if_pos hcur, if_pos hcur]
            exact andThenSt_sync (addDependency_sync current _ h)
              (fun s1 t1 h1 => andThen_sync (ih (.fragDeps _) s1 t1 h1)
                (fun x s2 t2 h2 => ⟨rfl, h2⟩))
          · rw [if_neg hcur, if_neg hcur]
            exact ⟨rfl, h⟩
        · rw [if_neg hc, if_neg hc]
          exact ⟨rfl, h⟩
    | elems xs current acc =>
      cases xs with
      | nil => exact ⟨rfl, h⟩
      | cons x rest =>
        simp only [RevB.parseCore]
        exact andThen_sync (ih (.one x current) s t h) (fun outx s1 t1 h1 =>
          ih (.elems rest current (acc ++ [RevB.outNode outx])) s1 t1 h1)
    | fragDeps name =>
      simp only [RevB.parseCore]
      cases hL : lookupFrag frags name with
      | none => exact ⟨rfl, h⟩
      | some v =>
        simp only []
        by_cases hm : setMem name s.evaluating = true
        · have hmt : setMem name t.evaluating = true := by rw [← h.1]; exact hm
          rw [if_pos hm, if_pos hmt]
          exact h
        · have hmt : ¬ setMem name t.evaluating = true := by rw [← h.1]; exact hm
          rw [if_neg hm, if_neg hmt]
          have hins : RevB.SRel
              { s with evaluating := setInsert name s.evaluating }
              { t with evaluating := setInsert name t.evaluating } := by
            constructor
            · show setInsert name s.evaluating = setInsert name t.evaluating
              rw [h.1]
            · exact h.2
          exact andThen_sync (withGuard_sync (ih (.one v name) _ _ hins))
            (fun x s2 t2 h2 => ⟨rfl, h2⟩)

/-- Node evaluation is synchronized across states that agree up to the path:
the same branch is taken and the same JSON value is produced; only error
messages (which embed the path) may differ. -/
theorem evalCore_sync (cfg : JsonResolverConfig) (frags : Frags) :
    ∀ (fuel : Nat) (task : RevB.EvalTask) (s t : RevB.St), RevB.SRel s t →
      RevB.RRel (RevB.evalCore cfg frags fuel task s)
        (RevB.evalCore cfg frags fuel task t) := by
  intro fuel
  induction fuel with
  | zero => intro task s t h; exact h
  | succ n ih =>
    intro task s t h
    cases task with
    | node nd =>
      cases nd with
      | literal v => exact ⟨rfl, h⟩
      | ref name =>
        simp only [RevB.evalCore]
        cases hL : lookupFrag frags name with
        | none =>
          simp only []
          cases cfg.missing_fragment_behavior
          · exact h
          · exact ⟨rfl, h⟩
          · exact ⟨rfl, h⟩
          · exact ⟨rfl, h⟩
        | some v => exact ⟨rfl, h⟩
      | template text => exact ih (.tmpl text.toList 0 false) s t h
      | object es => exact ih (.entries es []) s t h
      | array ns => exact ih (.elems ns 0 []) s t h
    | entries es acc =>
      cases es with
      | nil => exact ⟨rfl, h⟩
      | cons kv rest =>
        obtain ⟨kn, vn⟩ := kv
        simp only [RevB.evalCore]
        refine andThen_sync (ih (.node kn) s t h) ?_
        intro kj s1 t1 h1
        cases kj with
        | str k =>
          exact andThen_sync
            (withScope_sync (ih (.node vn) (RevB.pushPath s1 k) (RevB.pushPath t1 k) h1))
            (fun vj s2 t2 h2 => ih (.entries rest (objInsert acc k vj)) s2 t2 h2)
        | null => exact h1
        | bool b => exact h1
        | num m => exact h1
        | arr a2 => exact h1
        | obj o2 => exact h1
    | elems ns i acc =>
      cases ns with
      | nil => exact ⟨rfl, h⟩
      | cons nd rest =>
        simp only [RevB.evalCore]
        exact andThen_sync
          (withScope_sync (ih (.node nd) (RevB.pushPath s (toString i))
            (RevB.pushPath t (toString i)) h))
          (fun j s1 t1 h1 => ih (.elems rest (i + 1) (acc ++ [j])) s1 t1 h1)
    | tmpl result pos made =>
      simp only [RevB.evalCore]
      cases hF : findFrom result cfg.delimiters.endD.toList pos with
      | none =>
        simp only []
        cases made
        · exact ⟨rfl, h⟩
        · exact ih (.tmpl result 0 false) s t h
      | some ep =>
        simp only []
        cases hR : rfindUpTo result cfg.delimiters.start.toList ep with
        | none => exact ih (.tmpl result (ep + 1) made) s t h
        | some sp =>
          simp only []
          by_cases hlt : sp < pos
          · rw [if_pos hlt, if_pos hlt]
            exact ih (.tmpl result (ep + 1) made) s t h
          · rw [if_neg hlt, if_neg hlt]
            cases hL : lookupFrag frags (listAsStr (subList result
                (sp + cfg.delimiters.start.toList.length)
                (ep - (sp + cfg.delimiters.start.toList.length)))) with
            | none =>
              simp only []
              cases cfg.missing_fragment_behavior
              · exact h
              · exact ih (.tmpl result (ep + 1) made) _ _ h
              · cases cfg.default_value
                · exact h
                · exact h
                · exact h
                · exact ih _ _ _ h
                · exact h
                · exact h
              · exact ih _ _ _ h
            | some v =>
              simp only []
              cases v
              · exact h
              · exact h
              · exact h
              · exact ih _ _ _ h
              · exact h
              · exact h

/-- The JSON output of a resolve call, when it succeeded. -/
def resOkTop (r : Except Err Json × List String) : Option Json :=
  match r.1 with
  | .ok j => some j
  | .error _ => none

/-- Synchronized evaluation outcomes yield the same successful output. -/
theorem finish_sync {r r' : Except (Err × RevB.St) (Json × RevB.St)}
    (h : RevB.RRel r r') : resOkTop (RevB.finish r) = resOkTop (RevB.finish r') := by
  cases r with
  | error e =>
    obtain ⟨e1, s⟩ := e
    cases r' with
    | error e' => obtain ⟨e2, t⟩ := e'; rfl
    | ok p => exact h.elim
  | ok p =>
    obtain ⟨j, s⟩ := p
    cases r' with
    | error e' => exact h.elim
    | ok p' =>
      obtain ⟨j', t⟩ := p'
      obtain ⟨hj, hst⟩ := h
      cases hj
      rfl

/-- C10 (amended): successful resolve calls return identical JSON outputs
regardless of the evaluation-context path accumulated by earlier calls —
the resolution tree and the dependency tracker are created fresh per call —
but the evaluation context itself is a resolver member: `resolve` pushes the
start fragment and never pops it, so the path grows by one entry per call. -/
theorem c10_resolve_outputs_stable :
    (∀ (fuel : Nat) (cfg : JsonResolverConfig) (frags : Frags) (start : String)
        (ctx1 ctx2 : List String),
      resOkTop (RevB.resolve fuel cfg frags start ctx1) =
        resOkTop (RevB.resolve fuel cfg frags start ctx2)) ∧
    RevB.resolve 40 defaultConfig c10aFrags "a" [] = (.ok (.num 1), ["a"]) ∧
    RevB.resolve 40 defaultConfig c10aFrags "a" ["a"] = (.ok (.num 1), ["a", "a"]) := by
  refine ⟨?_, rfl, rfl⟩
  intro fuel cfg frags start ctx1 ctx2
  unfold RevB.resolve
  cases hL : lookupFrag frags start with
  | none => rfl
  | some v =>
    simp only []
    unfold RevB.parse
    have hp := parseCore_sync cfg frags fuel (.one v start)
      ⟨[], start :: ctx1, []⟩ ⟨[], start :: ctx2, []⟩ ⟨rfl, rfl⟩
    cases h1 : RevB.parseCore cfg frags fuel (.one v start) ⟨[], start :: ctx1, []⟩ with
    | error e1 =>
      obtain ⟨e1', s1⟩ := e1
      cases h2 : RevB.parseCore cfg frags fuel (.one v start) ⟨[], start :: ctx2, []⟩ with
      | error e2 => obtain ⟨e2', s2⟩ := e2; rfl
      | ok p2 =>
        rw [h1, h2] at hp
        obtain ⟨x2, s2⟩ := p2
        exact hp.elim
    | ok p1 =>
      obtain ⟨out1, s1⟩ := p1
      cases h2 : RevB.parseCore cfg frags fuel (.one v start) ⟨[], start :: ctx2, []⟩ with
      | error e2 =>
        obtain ⟨e2', s2⟩ := e2
        rw [h1, h2] at hp
        exact hp.elim
      | ok p2 =>
        obtain ⟨out2, s2⟩ := p2
        rw [h1, h2] at hp
        obtain ⟨hout, hst⟩ := hp
        cases hout
        cases out1 with
        | node nc => exact finish_sync (evalCore_sync cfg frags fuel (.node nc) s1 s2 hst)
        | entries es =>
          exact finish_sync (evalCore_sync cfg frags fuel (.node (.literal .null)) s1 s2 hst)
        | elems ns =>
          exact finish_sync (evalCore_sync cfg frags fuel (.node (.literal .null)) s1 s2 hst)
        | done =>
          exact finish_sync (evalCore_sync cfg frags fuel (.node (.literal .null)) s1 s2 hst)
